import Mathlib

/-!
Verification of the expiring key/value cache in `internal/pokecache/cache.go`
of the pokedexcli repository.

Shallow embedding conventions:
- `time.Time` and `time.Duration` are both modelled as `Int` (nanosecond
  counts); `time.Time.Sub` is integer subtraction.
- A Go byte slice (`[]byte`) is a `List Nat`; the nil slice returned by a
  missed `Get` is the empty list.
- The Go map `map[string]cacheEntry` is a total function
  `String → Option cacheEntry`.
- Calls to `time.Now()` inside `Add` and `reap` become an explicit `now`
  argument.
- `Get` in Go is a method on `*Cache` that performs no write to the map; to
  make that checkable rather than assumed, `Get` is embedded in
  state-passing style, returning the (possibly updated) cache together with
  the payload and the found flag.
- The mutex acquire/release and the background goroutine `reapLoop` have no
  sequential content; the embedded operations are the bodies of their
  critical sections.
-/

namespace Pokecache

/-- One stored entry: the insertion timestamp and the payload bytes
(`cacheEntry` in cache.go). -/
structure cacheEntry where
  createdAt : Int
  val : List Nat
deriving DecidableEq, Repr

/-- The cache state visible to the sequential embedding: the key/value map
and the configured TTL (`Cache.entries` and `Cache.interval` in cache.go;
the mutex and the sweeper goroutine handle carry no sequential state). -/
structure Cache where
  entries : String → Option cacheEntry
  interval : Int

/-- `NewCache` from cache.go: an empty map and the given TTL. The
`go c.reapLoop()` call starts the sweeper; it does not touch the map. -/
def NewCache (interval : Int) : Cache :=
  { entries := fun _ => none, interval := interval }

/-- `Add` from cache.go: store `{createdAt: time.Now(), val: val}` under
`key`, overwriting any previous entry. -/
def Cache.Add (c : Cache) (key : String) (val : List Nat) (now : Int) : Cache :=
  { c with
    entries := fun k =>
      if k = key then some { createdAt := now, val := val } else c.entries k }

/-- `Get` from cache.go in state-passing style: look `key` up in the map;
on a miss return `(nil, false)`, on a hit return `(entry.val, true)`. The
method body performs no assignment to the map, so the returned cache is
the input cache. -/
def Cache.Get (c : Cache) (key : String) : Cache × List Nat × Bool :=
  match c.entries key with
  | none => (c, [], false)
  | some entry => (c, entry.val, true)

/-- `reap` from cache.go: with `now := time.Now()`, delete every entry
with `now - entry.createdAt > c.interval`; every other entry is kept
untouched. -/
def Cache.reap (c : Cache) (now : Int) : Cache :=
  { c with
    entries := fun key =>
      match c.entries key with
      | none => none
      | some entry =>
          if now - entry.createdAt > c.interval then none else some entry }

/-- Claim C1: for every key `k` and payload `v`, after `Add k v` an
immediate `Get k` on the same cache returns the pair `(v, true)`. -/
theorem add_then_get (c : Cache) (k : String) (v : List Nat) (now : Int) :
    ((c.Add k v now).Get k).2 = (v, true) := by
  simp [Cache.Add, Cache.Get]

/-- Claim C2: after `Add k v1` then `Add k v2`, `Get k` returns
`(v2, true)`: the second insertion silently overwrites the first entry for
the same key. -/
theorem add_overwrites (c : Cache) (k : String) (v1 v2 : List Nat)
    (t1 t2 : Int) :
    (((c.Add k v1 t1).Add k v2 t2).Get k).2 = (v2, true) := by
  simp [Cache.Add, Cache.Get]

/-- Claim C3: on a freshly constructed cache, `Get k` misses for every key
`k`, returning the empty payload and `false`. -/
theorem get_on_new_cache (ttl : Int) (k : String) :
    ((NewCache ttl).Get k).2 = ([], false) := by
  simp [NewCache, Cache.Get]

/-- Claim C4: a single `reap` pass at time `now` removes exactly the
entries whose age strictly exceeds the TTL: an entry stored under `k` is
deleted when `now - createdAt > interval` and otherwise survives with its
payload and `createdAt` unchanged; in particular an entry aged exactly
`interval` is kept. -/
theorem reap_removes_exactly_expired (c : Cache) (now : Int) (k : String)
    (e : cacheEntry) (h : c.entries k = some e) :
    (c.reap now).entries k =
      if now - e.createdAt > c.interval then none else some e := by
  simp [Cache.reap, h]

/-- Witness for claim C4: a cache holding an entry of age 5 and an entry of
age 11 under TTL 10; after a reap the first survives unchanged and the
second is gone. -/
theorem reap_removes_exactly_expired_witness :
    ((((NewCache 10).Add "a" [1, 2] 6).Add "b" [3] 0).reap 11).entries "a" =
        some { createdAt := 6, val := [1, 2] } ∧
      ((((NewCache 10).Add "a" [1, 2] 6).Add "b" [3] 0).reap 11).entries "b" =
        none := by
  constructor
  · have h := reap_removes_exactly_expired
      (((NewCache 10).Add "a" [1, 2] 6).Add "b" [3] 0) 11 "a"
      { createdAt := 6, val := [1, 2] } (by decide)
    simpa using h
  · have h := reap_removes_exactly_expired
      (((NewCache 10).Add "a" [1, 2] 6).Add "b" [3] 0) 11 "b"
      { createdAt := 0, val := [3] } (by decide)
    simpa using h

/-- Claim C5: `Get` performs no age check: whenever `k` is present in the
map with entry `e`, `Get k` returns `(e.val, true)` regardless of how
`e.createdAt` relates to `now` or the TTL. -/
theorem get_ignores_age (c : Cache) (k : String) (e : cacheEntry)
    (h : c.entries k = some e) :
    (c.Get k).2 = (e.val, true) := by
  simp [Cache.Get, h]

/-- Witness for claim C5: under TTL 1, an entry inserted at time 0 is still
returned by `Get`, with no reference to any current time. -/
theorem get_ignores_age_witness :
    (((NewCache 1).Add "k" [5] 0).Get "k").2 = ([5], true) :=
  get_ignores_age ((NewCache 1).Add "k" [5] 0) "k"
    { createdAt := 0, val := [5] } (by decide)

/-- Claim C6: for distinct keys, `Add k1 v` leaves the entry stored under
`k2` (its presence, payload and `createdAt`) and hence the result of
`Get k2` unchanged. -/
theorem add_frame (c : Cache) (k1 k2 : String) (v : List Nat) (now : Int)
    (h : k1 ≠ k2) :
    (c.Add k1 v now).entries k2 = c.entries k2 ∧
      ((c.Add k1 v now).Get k2).2 = (c.Get k2).2 := by
  have hk : (c.Add k1 v now).entries k2 = c.entries k2 := by
    simp [Cache.Add, Ne.symm h]
  refine ⟨hk, ?_⟩
  simp only [Cache.Get, hk]
  cases c.entries k2 <;> rfl

/-- Witness for claim C6: inserting under "a" does not disturb the entry
under "b". -/
theorem add_frame_witness :
    "a" ≠ "b" ∧
      ((((NewCache 10).Add "b" [7] 2).Add "a" [1] 5).entries "b" =
          ((NewCache 10).Add "b" [7] 2).entries "b" ∧
        ((((NewCache 10).Add "b" [7] 2).Add "a" [1] 5).Get "b").2 =
          (((NewCache 10).Add "b" [7] 2).Get "b").2) :=
  ⟨by decide, add_frame ((NewCache 10).Add "b" [7] 2) "a" "b" [1] 5 (by decide)⟩

/-- Claim C7: `Add` on a key that is already present replaces the entry
wholesale: the resulting entry carries the timestamp of the `Add` call and
the new payload, with no dependence on the old entry. -/
theorem add_resets_age_clock (c : Cache) (k : String) (v : List Nat)
    (now : Int) (old : cacheEntry) (h : c.entries k = some old) :
    (c.Add k v now).entries k = some { createdAt := now, val := v } := by
  simp [Cache.Add]

/-- Witness for claim C7: overwriting the entry stored at time 0 by an
`Add` at time 9 yields an entry with `createdAt = 9`. -/
theorem add_resets_age_clock_witness :
    (((NewCache 10).Add "k" [1] 0).Add "k" [2] 9).entries "k" =
      some { createdAt := 9, val := [2] } :=
  add_resets_age_clock ((NewCache 10).Add "k" [1] 0) "k" [2] 9
    { createdAt := 0, val := [1] } (by decide)

/-- Claim C8: the cache operations signal no errors: `Get` reports absence
exactly through its boolean found flag (the flag is `true` precisely when
the key is in the map), and `Add` always succeeds, leaving the key present;
both are total functions with no error outcome in their result types. -/
theorem no_error_signalling (c : Cache) (k : String) (v : List Nat)
    (now : Int) :
    (c.Get k).2.2 = (c.entries k).isSome ∧
      ((c.Add k v now).entries k).isSome = true := by
  constructor
  · cases h : c.entries k <;> simp [Cache.Get, h]
  · simp [Cache.Add]

/-- Claim C10: `Get` is a pure read: on hit or miss it returns the cache
state unchanged — same entries map and same TTL. -/
theorem get_is_pure (c : Cache) (k : String) : (c.Get k).1 = c := by
  cases h : c.entries k <;> simp [Cache.Get, h]

end Pokecache
